import Mathlib

/-!
Verification of the az_airdrop ink! contract (src/az_airdrop/lib.rs).

Shallow embedding conventions:
* Account ids, `Balance` (u128) and `Timestamp` (u64) are modelled as
  `Nat`, with explicit bound checks where the source performs checked or
  wide arithmetic.
* The contract is built with overflow checks (mandatory for ink! contracts),
  so an arithmetic overflow, as well as `U256::as_u128` on a value that does
  not fit `u128`, panics and the transaction is reverted.  A panicking
  execution is modelled by `Option.none` (inside `collectable_amount`) or by
  the distinguished error `AzAirdropError.Trap`; in both cases the state is
  returned unchanged, matching the chain-level revert.
* ink! messages whose `Result` value is an `Err` revert every storage write
  performed during the call; mutating operations therefore return the
  original state on every error path (for `update_config`, which writes
  fields before its checks, this is made explicit by the
  `update_config_raw` / `update_config` pair).
* `ink::storage::Mapping` is modelled by an association list, and PSP22
  interactions (live token balance, transfer success) are inputs of each
  step; performed transfers are reported in the output.
-/

/-- First value that does not fit `u128`. -/
def U128_LIMIT : Nat := 2 ^ 128

/-- First value that does not fit `u64` (a `Timestamp` is a `u64`). -/
def U64_LIMIT : Nat := 2 ^ 64

/-- `U256::as_u128`: the exact value if it fits `u128`, otherwise a panic. -/
def asU128 (n : Nat) : Option Nat :=
  if n < U128_LIMIT then some n else none

/-- `u128::checked_add` (also the semantics of `+` under overflow checks). -/
def checkedAddU128 (a b : Nat) : Option Nat :=
  if a + b < U128_LIMIT then some (a + b) else none

/-- `u64` addition under overflow checks. -/
def checkedAddU64 (a b : Nat) : Option Nat :=
  if a + b < U64_LIMIT then some (a + b) else none

/-- `u128::saturating_add`. -/
def saturatingAddU128 (a b : Nat) : Nat :=
  min (a + b) (U128_LIMIT - 1)

/-- Recipient record (struct `Recipient` in the source). -/
structure Recipient where
  total_amount : Nat
  collected : Nat
  collectable_at_tge_percentage : Nat
  cliff_duration : Nat
  vesting_duration : Nat
deriving DecidableEq

/-- The schedule invariants of spec section 3 for a recipient record, together
with the `u128` bound of the `Balance` domain. -/
def RecipientValid (start : Nat) (r : Recipient) : Prop :=
  r.total_amount < U128_LIMIT ∧
  r.collected ≤ r.total_amount ∧
  r.collectable_at_tge_percentage ≤ 100 ∧
  (r.collectable_at_tge_percentage = 100 → r.cliff_duration = 0 ∧ r.vesting_duration = 0) ∧
  (r.collectable_at_tge_percentage < 100 → 0 < r.vesting_duration) ∧
  start + r.cliff_duration + r.vesting_duration ≤ U64_LIMIT - 1

/-- The `if recipient.vesting_duration > 0` block of `collectable_amount`:
adds `vesting_collectable` to `collectable_at_tge`.  `none` models a panic
(the overflowing `u64` addition `start + cliff_duration`, a `U256` quotient
that does not fit `u128`, or an overflowing `u128` addition). -/
def vestingStage (start : Nat) (r : Recipient) (timestamp : Nat)
    (collectable_at_tge : Nat) : Option Nat :=
  if 0 < r.vesting_duration then
    match checkedAddU64 start r.cliff_duration with
    | none => none
    | some vesting_start =>
      if vesting_start ≤ timestamp then
        match asU128 ((timestamp - vesting_start) *
            (r.total_amount - collectable_at_tge) / r.vesting_duration) with
        | none => none
        | some vesting_collectable =>
          checkedAddU128 collectable_at_tge vesting_collectable
      else some collectable_at_tge
  else some collectable_at_tge

/-- The unlocked (cumulative collectable) amount computed inside
`collectable_amount`: the value of `total_collectable_at_time` just before
`recipient.collected` is subtracted.  `none` models a panic. -/
def totalCollectable (start : Nat) (r : Recipient) (timestamp : Nat) :
    Option Nat :=
  if start ≤ timestamp then
    match asU128 (r.collectable_at_tge_percentage * r.total_amount / 100) with
    | none => none
    | some collectable_at_tge =>
      match vestingStage start r timestamp collectable_at_tge with
      | none => none
      | some t => some (if r.total_amount < t then r.total_amount else t)
  else some 0

/-- The value returned by `collectable_amount` for a given record:
the unlocked amount with `collected` subtracted saturating at zero
(`Nat` subtraction is saturating).  `none` models a panic. -/
def collectable_amount_value (start : Nat) (r : Recipient) (timestamp : Nat) :
    Option Nat :=
  (totalCollectable start r timestamp).map (fun t => t - r.collected)

/-- Spec-side definition, following the words of spec section 4.1: the
three-phase unlocked value, with `elapsed` clamped by
`min (now - vesting_start) vesting_duration` and a final clamp at
`total_amount`. -/
def spec_unlocked (start : Nat) (r : Recipient) (now : Nat) : Nat :=
  if now < start then 0
  else
    let tge_amount := r.total_amount * r.collectable_at_tge_percentage / 100
    let unlocked :=
      if 0 < r.vesting_duration ∧ start + r.cliff_duration ≤ now then
        tge_amount +
          (min (now - (start + r.cliff_duration)) r.vesting_duration) *
            (r.total_amount - tge_amount) / r.vesting_duration
      else tge_amount
    min unlocked r.total_amount

/-- Spec-side definition: withdrawable amount, `unlocked - collected`
saturating at zero. -/
def spec_collectable_amount (start : Nat) (r : Recipient) (now : Nat) :
    Nat :=
  spec_unlocked start r now - r.collected

/-- A schedule-invariant-satisfying record on which `collectable_amount`
panics: the whole allocation vests linearly within one millisecond. -/
def overflowRecipient : Recipient :=
  { total_amount := U128_LIMIT - 1
    collected := 0
    collectable_at_tge_percentage := 0
    cliff_duration := 0
    vesting_duration := 1 }

/-- Claim C1 (code_bug evidence): `collectable_amount` does not clamp the
elapsed vesting time with `min (timestamp - vesting_start) vesting_duration`;
at this record (which satisfies every schedule invariant) and
`timestamp = 2` the wide intermediate
`(timestamp - vesting_start) * (total_amount - tge_amount) / vesting_duration`
equals `2 ^ 129 - 2`, so `U256::as_u128` panics and the query traps instead
of returning; the spec's three-phase value minus `collected` is
`2 ^ 128 - 1`. -/
theorem collectable_amount_overflow_bug :
    RecipientValid 0 overflowRecipient ∧
    collectable_amount_value 0 overflowRecipient 2 = none ∧
    spec_collectable_amount 0 overflowRecipient 2 = U128_LIMIT - 1 := by
  refine ⟨?_, by decide, ?_⟩
  · refine ⟨?_, ?_, ?_, ?_, ?_, ?_⟩ <;>
      simp [overflowRecipient, U128_LIMIT, U64_LIMIT]
  · decide

/-- Error enum `AzAirdropError` (src/az_airdrop/errors.rs), plus `Trap` for a
panicked (and hence reverted) execution. -/
inductive AzAirdropError where
  | ContractCall : AzAirdropError
  | InkEnvError : String → AzAirdropError
  | NotFound : String → AzAirdropError
  | PSP22Error : AzAirdropError
  | Unauthorised : AzAirdropError
  | UnprocessableEntity : String → AzAirdropError
  | Trap : AzAirdropError
deriving DecidableEq

/-- Contract storage (struct `AzAirdrop`).  Both `Mapping`s are modelled by
association lists; `sub_admins_as_vec` is the `Lazy` vector. -/
structure AzAirdrop where
  admin : Nat
  sub_admins_mapping : List (Nat × Nat)
  sub_admins_as_vec : List Nat
  token : Nat
  to_be_collected : Nat
  start : Nat
  recipients : List (Nat × Recipient)
  default_collectable_at_tge_percentage : Nat
  default_cliff_duration : Nat
  default_vesting_duration : Nat
deriving DecidableEq

/-- `Mapping::get`. -/
def mapGet {α : Type} (k : Nat) : List (Nat × α) → Option α
  | [] => none
  | (k2, v) :: rest => if k = k2 then some v else mapGet k rest

/-- `Mapping::insert` (replace the key's entry, or add one). -/
def mapInsert {α : Type} (k : Nat) (v : α) :
    List (Nat × α) → List (Nat × α)
  | [] => [(k, v)]
  | (k2, v2) :: rest =>
    if k = k2 then (k, v) :: rest else (k2, v2) :: mapInsert k v rest

/-- `Mapping::remove`. -/
def mapRemove {α : Type} (k : Nat) :
    List (Nat × α) → List (Nat × α)
  | [] => []
  | (k2, v) :: rest =>
    if k2 = k then mapRemove k rest else (k2, v) :: mapRemove k rest

/-- `sub_admins.iter().position(|x| *x == address)` followed by
`sub_admins.remove(index)`: removes the first occurrence, `none` when the
`unwrap` would panic because the address is absent. -/
def removeFirst (a : Nat) : List Nat → Option (List Nat)
  | [] => none
  | x :: rest =>
    if x = a then some rest else (removeFirst a rest).map (fun l => x :: l)

/-- `authorise_to_update_recipient`: the caller is the admin or a sub-admin. -/
abbrev CanUpdateRecipients (s : AzAirdrop) (caller : Nat) : Prop :=
  caller = s.admin ∨ (mapGet caller s.sub_admins_mapping).isSome = true

/-- `validate_airdrop_calculation_variables`. -/
def validate_airdrop_calculation_variables (start : Nat)
    (collectable_at_tge_percentage : Nat) (cliff_duration vesting_duration : Nat) :
    Except AzAirdropError Unit :=
  if 100 < collectable_at_tge_percentage then
    .error (.UnprocessableEntity
      "collectable_at_tge_percentage must be less than or equal to 100")
  else if collectable_at_tge_percentage = 100 ∧
      (0 < cliff_duration ∨ 0 < vesting_duration) then
    .error (.UnprocessableEntity
      "cliff_duration and vesting_duration must be 0 when collectable_tge_percentage is 100")
  else if collectable_at_tge_percentage ≠ 100 ∧ vesting_duration = 0 then
    .error (.UnprocessableEntity
      "vesting_duration must be greater than 0 when collectable_tge_percentage is not 100")
  else if U64_LIMIT - 1 < start + cliff_duration + vesting_duration then
    .error (.UnprocessableEntity
      "Combination of start, cliff_duration and vesting_duration exceeds limit")
  else .ok ()

/-- Constructor `new`. -/
def new (caller token : Nat) (start : Nat)
    (default_collectable_at_tge_percentage : Nat)
    (default_cliff_duration default_vesting_duration : Nat) :
    Except AzAirdropError AzAirdrop :=
  match validate_airdrop_calculation_variables start
      default_collectable_at_tge_percentage default_cliff_duration
      default_vesting_duration with
  | .error e => .error e
  | .ok _ =>
    .ok { admin := caller
          sub_admins_mapping := []
          sub_admins_as_vec := []
          token := token
          to_be_collected := 0
          start := start
          recipients := []
          default_collectable_at_tge_percentage := default_collectable_at_tge_percentage
          default_cliff_duration := default_cliff_duration
          default_vesting_duration := default_vesting_duration }

/-- `add_to_recipient`.  `balance` is the live `PSP22::balance_of` of the
contract.  Errors (including the overflow trap of `total_amount += amount`)
leave the state unchanged. -/
def add_to_recipient (s : AzAirdrop) (caller : Nat) (now : Nat)
    (balance : Nat) (address : Nat) (amount : Nat)
    (description : Option String) : Except AzAirdropError Recipient × AzAirdrop :=
  if ¬ CanUpdateRecipients s caller then (.error .Unauthorised, s)
  else if s.start ≤ now then (.error (.UnprocessableEntity "Airdrop has started"), s)
  else
    match checkedAddU128 amount s.to_be_collected with
    | none =>
      (.error (.UnprocessableEntity "Amount will cause to_be_collected to overflow"), s)
    | some new_to_be_collected =>
      if balance < new_to_be_collected then
        (.error (.UnprocessableEntity "Insufficient balance"), s)
      else
        let r0 : Recipient := (mapGet address s.recipients).getD
          { total_amount := 0
            collected := 0
            collectable_at_tge_percentage := s.default_collectable_at_tge_percentage
            cliff_duration := s.default_cliff_duration
            vesting_duration := s.default_vesting_duration }
        match checkedAddU128 r0.total_amount amount with
        | none => (.error .Trap, s)
        | some new_total =>
          let r1 := { r0 with total_amount := new_total }
          (.ok r1,
           { s with recipients := mapInsert address r1 s.recipients
                    to_be_collected := new_to_be_collected })

/-- `collect`.  `transfer_ok` tells whether the PSP22 transfer to the caller
succeeds; the third component lists the performed external transfers. -/
def collect (s : AzAirdrop) (caller : Nat) (now : Nat)
    (transfer_ok : Bool) :
    Except AzAirdropError Nat × AzAirdrop × List (Nat × Nat) :=
  match mapGet caller s.recipients with
  | none => (.error (.NotFound "Recipient"), s, [])
  | some recipient =>
    match collectable_amount_value s.start recipient now with
    | none => (.error .Trap, s, [])
    | some collectable =>
      if collectable = 0 then
        (.error (.UnprocessableEntity "Amount is zero"), s, [])
      else if transfer_ok = false then (.error .PSP22Error, s, [])
      else
        let r1 := { recipient with
                    collected := saturatingAddU128 recipient.collected collectable }
        (.ok collectable,
         { s with recipients := mapInsert caller r1 s.recipients
                  to_be_collected := s.to_be_collected - collectable },
         [(caller, collectable)])

/-- `subtract_from_recipient`. -/
def subtract_from_recipient (s : AzAirdrop) (caller : Nat) (now : Nat)
    (address : Nat) (amount : Nat) (description : Option String) :
    Except AzAirdropError Recipient × AzAirdrop :=
  if ¬ CanUpdateRecipients s caller then (.error .Unauthorised, s)
  else if s.start ≤ now then (.error (.UnprocessableEntity "Airdrop has started"), s)
  else
    match mapGet address s.recipients with
    | none => (.error (.NotFound "Recipient"), s)
    | some recipient =>
      if recipient.total_amount < amount then
        (.error (.UnprocessableEntity "Amount is greater than recipient's total amount"), s)
      else
        let r1 := { recipient with total_amount := recipient.total_amount - amount }
        (.ok r1,
         { s with recipients := mapInsert address r1 s.recipients
                  to_be_collected := s.to_be_collected - amount })

/-- `sub_admins_add`. -/
def sub_admins_add (s : AzAirdrop) (caller address : Nat) :
    Except AzAirdropError (List Nat) × AzAirdrop :=
  if caller ≠ s.admin then (.error .Unauthorised, s)
  else if (mapGet address s.sub_admins_mapping).isSome then
    (.error (.UnprocessableEntity "Already a sub admin"), s)
  else
    let sub_admins := s.sub_admins_as_vec ++ [address]
    (.ok sub_admins,
     { s with sub_admins_as_vec := sub_admins
              sub_admins_mapping := mapInsert address address s.sub_admins_mapping })

/-- `sub_admins_remove`.  The source looks the address up in the vector with
`position(..).unwrap()`: if the mapping has the address but the vector does
not, that `unwrap` panics (`Trap`). -/
def sub_admins_remove (s : AzAirdrop) (caller address : Nat) :
    Except AzAirdropError (List Nat) × AzAirdrop :=
  if caller ≠ s.admin then (.error .Unauthorised, s)
  else if (mapGet address s.sub_admins_mapping).isSome = false then
    (.error (.UnprocessableEntity "Not a sub admin"), s)
  else
    match removeFirst address s.sub_admins_as_vec with
    | none => (.error .Trap, s)
    | some sub_admins =>
      (.ok sub_admins,
       { s with sub_admins_as_vec := sub_admins
                sub_admins_mapping := mapRemove address s.sub_admins_mapping })

/-- Tail of `update_config`: apply the optional default-schedule fields, then
`validate_airdrop_calculation_variables` on the resulting state.  On a
validation error the partially written state is returned (the `update_config`
wrapper below discards it, as ink! reverts the storage writes). -/
def update_config_defaults (s : AzAirdrop) (default_pct : Option Nat)
    (default_cliff default_vesting : Option Nat) :
    Except AzAirdropError Unit × AzAirdrop :=
  let s1 := match default_pct with
    | some x => { s with default_collectable_at_tge_percentage := x }
    | none => s
  let s2 := match default_cliff with
    | some x => { s1 with default_cliff_duration := x }
    | none => s1
  let s3 := match default_vesting with
    | some x => { s2 with default_vesting_duration := x }
    | none => s2
  match validate_airdrop_calculation_variables s3.start
      s3.default_collectable_at_tge_percentage s3.default_cliff_duration
      s3.default_vesting_duration with
  | .error e => (.error e, s3)
  | .ok _ => (.ok (), s3)

/-- `update_config`, literal control flow: the admin field is written before
the start-time checks, so an early error return leaves a partially updated
in-memory state (second component). -/
def update_config_raw (s : AzAirdrop) (caller : Nat) (now : Nat)
    (admin2 : Option Nat) (start2 : Option Nat)
    (default_pct : Option Nat) (default_cliff default_vesting : Option Nat) :
    Except AzAirdropError Unit × AzAirdrop :=
  if caller ≠ s.admin then (.error .Unauthorised, s)
  else
    let s1 := match admin2 with
      | some a => { s with admin := a }
      | none => s
    match start2 with
    | none => update_config_defaults s1 default_pct default_cliff default_vesting
    | some ns =>
      if now < ns then
        if s1.to_be_collected = 0 then
          update_config_defaults { s1 with start := ns } default_pct default_cliff
            default_vesting
        else
          (.error (.UnprocessableEntity
            "to_be_collected must be zero when changing start time"), s1)
      else
        (.error (.UnprocessableEntity "New start time must be in the future"), s1)

/-- `update_config` at the transaction level: an ink! message returning `Err`
reverts its storage writes, so the pre-call state is kept on error. -/
def update_config (s : AzAirdrop) (caller : Nat) (now : Nat)
    (admin2 : Option Nat) (start2 : Option Nat)
    (default_pct : Option Nat) (default_cliff default_vesting : Option Nat) :
    Except AzAirdropError Unit × AzAirdrop :=
  match update_config_raw s caller now admin2 start2 default_pct default_cliff
      default_vesting with
  | (.ok u, s2) => (.ok u, s2)
  | (.error e, _) => (.error e, s)

/-- `update_recipient`: applies the optional schedule fields to a copy of the
record, validates, and only then writes the record back. -/
def update_recipient (s : AzAirdrop) (caller : Nat) (now : Nat)
    (address : Nat) (pct2 : Option Nat)
    (cliff2 vesting2 : Option Nat) :
    Except AzAirdropError Recipient × AzAirdrop :=
  if ¬ CanUpdateRecipients s caller then (.error .Unauthorised, s)
  else if s.start ≤ now then (.error (.UnprocessableEntity "Airdrop has started"), s)
  else
    match mapGet address s.recipients with
    | none => (.error (.NotFound "Recipient"), s)
    | some r0 =>
      let r1 := match pct2 with
        | some x => { r0 with collectable_at_tge_percentage := x }
        | none => r0
      let r2 := match cliff2 with
        | some x => { r1 with cliff_duration := x }
        | none => r1
      let r3 := match vesting2 with
        | some x => { r2 with vesting_duration := x }
        | none => r2
      match validate_airdrop_calculation_variables s.start
          r3.collectable_at_tge_percentage r3.cliff_duration r3.vesting_duration with
      | .error e => (.error e, s)
      | .ok _ => (.ok r3, { s with recipients := mapInsert address r3 s.recipients })

/-- One external call of the conservation trace (claim C3), with its
environment: caller, block timestamp, and for `add_to_recipient` the live
token balance, for `collect` the PSP22 transfer outcome. -/
inductive Call where
  | addCall (caller address : Nat) (amount : Nat) (now : Nat)
      (balance : Nat) (description : Option String) : Call
  | subtractCall (caller address : Nat) (amount : Nat) (now : Nat)
      (description : Option String) : Call
  | collectCall (caller : Nat) (now : Nat) (transfer_ok : Bool) : Call

/-- Block timestamp of a call. -/
def Call.time : Call → Nat
  | .addCall _ _ _ now _ _ => now
  | .subtractCall _ _ _ now _ => now
  | .collectCall _ now _ => now

/-- Resulting state of one call (successful or failed). -/
def applyCall (s : AzAirdrop) : Call → AzAirdrop
  | .addCall caller address amount now balance d =>
    (add_to_recipient s caller now balance address amount d).2
  | .subtractCall caller address amount now d =>
    (subtract_from_recipient s caller now address amount d).2
  | .collectCall caller now transfer_ok => (collect s caller now transfer_ok).2.1

/-- Resulting state of a sequence of calls. -/
def runCalls (s : AzAirdrop) (calls : List Call) : AzAirdrop :=
  calls.foldl applyCall s

/-- Sum over all recipient records of `total_amount - collected`. -/
def recSum (m : List (Nat × Recipient)) : Nat :=
  (m.map (fun p => p.2.total_amount - p.2.collected)).sum

/-- Ledger bookkeeping invariant: `to_be_collected` equals the outstanding
sum, and no record has collected more than its total. -/
def LedgerInv (s : AzAirdrop) : Prop :=
  s.to_be_collected = recSum s.recipients ∧
  ∀ p ∈ s.recipients, p.2.collected ≤ p.2.total_amount

theorem mapGet_mem {α : Type} {k : Nat} {v : α} {m : List (Nat × α)}
    (h : mapGet k m = some v) : (k, v) ∈ m := by
  induction m with
  | nil => simp [mapGet] at h
  | cons p rest ih =>
    obtain ⟨k2, v2⟩ := p
    by_cases hk : k = k2
    · subst hk
      simp [mapGet] at h
      simp [h]
    · simp [mapGet, hk] at h
      simp [ih h]

theorem mem_mapInsert {α : Type} {p : Nat × α} {k : Nat} {v : α}
    {m : List (Nat × α)} (h : p ∈ mapInsert k v m) : p = (k, v) ∨ p ∈ m := by
  induction m with
  | nil => simpa [mapInsert] using h
  | cons q rest ih =>
    obtain ⟨k2, v2⟩ := q
    by_cases hk : k = k2
    · subst hk
      simp [mapInsert] at h
      rcases h with h | h
      · exact Or.inl (by simp [h])
      · exact Or.inr (by simp [h])
    · simp [mapInsert, hk] at h
      rcases h with h | h
      · exact Or.inr (by simp [h])
      · rcases ih h with h2 | h2
        · exact Or.inl h2
        · exact Or.inr (by simp [h2])

theorem mapGet_mapInsert_self {α : Type} (k : Nat) (v : α)
    (m : List (Nat × α)) : mapGet k (mapInsert k v m) = some v := by
  induction m with
  | nil => simp [mapGet, mapInsert]
  | cons q rest ih =>
    obtain ⟨k2, v2⟩ := q
    by_cases hk : k = k2
    · subst hk
      simp [mapGet, mapInsert]
    · simp [mapGet, mapInsert, hk, ih]

/-- Outstanding amount of an optional record. -/
def optContrib : Option Recipient → Nat
  | none => 0
  | some r => r.total_amount - r.collected

theorem recSum_insert (k : Nat) (v : Recipient)
    (m : List (Nat × Recipient)) :
    recSum (mapInsert k v m) + optContrib (mapGet k m) =
      recSum m + (v.total_amount - v.collected) := by
  induction m with
  | nil => simp [recSum, mapInsert, mapGet, optContrib]
  | cons q rest ih =>
    obtain ⟨k2, v2⟩ := q
    by_cases hk : k = k2
    · subst hk
      simp [mapInsert, mapGet, recSum, optContrib]
      omega
    · simp [mapInsert, mapGet, hk, recSum] at ih ⊢
      omega

theorem contrib_le_recSum {k : Nat} {r : Recipient}
    {m : List (Nat × Recipient)} (h : mapGet k m = some r) :
    r.total_amount - r.collected ≤ recSum m := by
  induction m with
  | nil => simp [mapGet] at h
  | cons q rest ih =>
    obtain ⟨k2, v2⟩ := q
    by_cases hk : k = k2
    · subst hk
      simp [mapGet] at h
      simp [recSum, h]
    · simp [mapGet, hk] at h
      have h2 := ih h
      have h3 : recSum ((k2, v2) :: rest) = v2.total_amount - v2.collected + recSum rest := by
        simp [recSum]
      omega

theorem asU128_some {a c : Nat} (h : asU128 a = some c) : c = a ∧ a < U128_LIMIT := by
  unfold asU128 at h
  split at h
  · cases h
    exact ⟨rfl, by assumption⟩
  · cases h

theorem asU128_of_lt {a : Nat} (h : a < U128_LIMIT) : asU128 a = some a := by
  simp [asU128, h]

theorem checkedAddU128_some {a b c : Nat} (h : checkedAddU128 a b = some c) :
    c = a + b ∧ a + b < U128_LIMIT := by
  unfold checkedAddU128 at h
  split at h
  · cases h
    exact ⟨rfl, by assumption⟩
  · cases h

theorem checkedAddU64_of_lt {a b : Nat} (h : a + b < U64_LIMIT) :
    checkedAddU64 a b = some (a + b) := by
  simp [checkedAddU64, h]

/-- `tge_amount ≤ total_amount` whenever the percentage is at most 100. -/
theorem tge_le_total {pct total : Nat} (h : pct ≤ 100) : pct * total / 100 ≤ total := by
  calc pct * total / 100 ≤ 100 * total / 100 :=
        Nat.div_le_div_right (Nat.mul_le_mul_right total h)
    _ = total := Nat.mul_div_cancel_left total (by norm_num)

/-- Mathematical (exact, unclamped) unlocked value of the code's formula:
`tge_amount` plus the linear vesting quotient with the raw elapsed time. -/
def rawUnlocked (start : Nat) (r : Recipient) (t : Nat) : Nat :=
  if t < start then 0
  else if 0 < r.vesting_duration ∧ start + r.cliff_duration ≤ t then
    r.collectable_at_tge_percentage * r.total_amount / 100 +
      (t - (start + r.cliff_duration)) *
        (r.total_amount - r.collectable_at_tge_percentage * r.total_amount / 100) /
        r.vesting_duration
  else r.collectable_at_tge_percentage * r.total_amount / 100

theorem vestingStage_lt {start : Nat} {r : Recipient} {t tge t0 : Nat}
    (htge : tge < U128_LIMIT) (h : vestingStage start r t tge = some t0) :
    t0 < U128_LIMIT := by
  unfold vestingStage at h
  split at h
  · cases hadd : checkedAddU64 start r.cliff_duration with
    | none => rw [hadd] at h; cases h
    | some vs =>
      rw [hadd] at h
      simp only [] at h
      split at h
      · cases hq : asU128 ((t - vs) * (r.total_amount - tge) / r.vesting_duration) with
        | none => rw [hq] at h; cases h
        | some vc =>
          rw [hq] at h
          simp only [] at h
          obtain ⟨h1, h2⟩ := checkedAddU128_some h
          omega
      · cases h
        exact htge
  · cases h
    exact htge

theorem vestingStage_eq {start : Nat} {r : Recipient} {t tge t0 : Nat}
    (hcliff : start + r.cliff_duration < U64_LIMIT)
    (h : vestingStage start r t tge = some t0) :
    t0 = if 0 < r.vesting_duration ∧ start + r.cliff_duration ≤ t then
      tge + (t - (start + r.cliff_duration)) * (r.total_amount - tge) / r.vesting_duration
    else tge := by
  unfold vestingStage at h
  rw [checkedAddU64_of_lt hcliff] at h
  by_cases hv : 0 < r.vesting_duration
  · rw [if_pos hv] at h
    simp only [] at h
    by_cases hts : start + r.cliff_duration ≤ t
    · rw [if_pos hts] at h
      cases hq : asU128 ((t - (start + r.cliff_duration)) * (r.total_amount - tge) /
          r.vesting_duration) with
      | none => rw [hq] at h; cases h
      | some vc =>
        rw [hq] at h
        simp only [] at h
        obtain ⟨h1, _⟩ := checkedAddU128_some h
        obtain ⟨h2, _⟩ := asU128_some hq
        rw [if_pos ⟨hv, hts⟩]
        omega
    · rw [if_neg hts] at h
      cases h
      rw [if_neg (by tauto)]
  · rw [if_neg hv] at h
    cases h
    rw [if_neg (by tauto)]

theorem totalCollectable_not_started {start : Nat} {r : Recipient} {t : Nat}
    (h : ¬ start ≤ t) : totalCollectable start r t = some 0 := by
  simp [totalCollectable, h]

/-- Where `collectable_amount` does not panic, its unlocked value is the
mathematical formula clamped at `total_amount`. -/
theorem totalCollectable_some_eq {start : Nat} {r : Recipient} {t u : Nat}
    (hpct : r.collectable_at_tge_percentage ≤ 100)
    (htot : r.total_amount < U128_LIMIT)
    (hcliff : start + r.cliff_duration < U64_LIMIT)
    (h : totalCollectable start r t = some u) :
    u = min (rawUnlocked start r t) r.total_amount := by
  unfold totalCollectable at h
  by_cases hst : start ≤ t
  · rw [if_pos hst] at h
    have htge : r.collectable_at_tge_percentage * r.total_amount / 100 < U128_LIMIT :=
      lt_of_le_of_lt (tge_le_total hpct) htot
    rw [asU128_of_lt htge] at h
    simp only [] at h
    cases hvs : vestingStage start r t
        (r.collectable_at_tge_percentage * r.total_amount / 100) with
    | none => rw [hvs] at h; cases h
    | some t0 =>
      rw [hvs] at h
      simp only [Option.some.injEq] at h
      have he := vestingStage_eq hcliff hvs
      have hraw : rawUnlocked start r t =
          if 0 < r.vesting_duration ∧ start + r.cliff_duration ≤ t then
            r.collectable_at_tge_percentage * r.total_amount / 100 +
              (t - (start + r.cliff_duration)) *
                (r.total_amount - r.collectable_at_tge_percentage * r.total_amount / 100) /
                r.vesting_duration
          else r.collectable_at_tge_percentage * r.total_amount / 100 := by
        unfold rawUnlocked
        rw [if_neg (by omega)]
      rw [hraw, ← he]
      rw [← h]
      split <;> omega
  · rw [if_neg hst] at h
    simp only [Option.some.injEq] at h
    unfold rawUnlocked
    rw [if_pos (by omega)]
    omega

/-- A non-panicking unlocked value is at most `total_amount` (the final clamp)
and fits `u128`. -/
theorem totalCollectable_bounds {start : Nat} {r : Recipient} {t u : Nat}
    (h : totalCollectable start r t = some u) :
    u ≤ r.total_amount ∧ u < U128_LIMIT := by
  unfold totalCollectable at h
  by_cases hst : start ≤ t
  · rw [if_pos hst] at h
    cases htge : asU128 (r.collectable_at_tge_percentage * r.total_amount / 100) with
    | none => rw [htge] at h; cases h
    | some tge =>
      rw [htge] at h
      simp only [] at h
      cases hvs : vestingStage start r t tge with
      | none => rw [hvs] at h; cases h
      | some t0 =>
        rw [hvs] at h
        simp only [Option.some.injEq] at h
        obtain ⟨hteq, htlt⟩ := asU128_some htge
        subst hteq
        have h1 : t0 < U128_LIMIT := vestingStage_lt htlt hvs
        rw [← h]
        split <;> omega
  · rw [if_neg hst] at h
    simp only [Option.some.injEq] at h
    have : 0 < U128_LIMIT := by decide
    omega

/-- The mathematical unlocked value is monotone in the timestamp. -/
theorem rawUnlocked_mono (start : Nat) (r : Recipient) {t1 t2 : Nat} (h : t1 ≤ t2) :
    rawUnlocked start r t1 ≤ rawUnlocked start r t2 := by
  unfold rawUnlocked
  by_cases h1 : t1 < start
  · rw [if_pos h1]
    exact Nat.zero_le _
  · have h2 : ¬ t2 < start := by omega
    rw [if_neg h1, if_neg h2]
    by_cases hc1 : 0 < r.vesting_duration ∧ start + r.cliff_duration ≤ t1
    · have hc2 : 0 < r.vesting_duration ∧ start + r.cliff_duration ≤ t2 :=
        ⟨hc1.1, le_trans hc1.2 h⟩
      rw [if_pos hc1, if_pos hc2]
      refine Nat.add_le_add_left (Nat.div_le_div_right (Nat.mul_le_mul_right _ ?_)) _
      omega
    · rw [if_neg hc1]
      by_cases hc2 : 0 < r.vesting_duration ∧ start + r.cliff_duration ≤ t2
      · rw [if_pos hc2]
        exact Nat.le_add_right _ _
      · rw [if_neg hc2]

/-- Claim C8: for a fixed recipient record satisfying the schedule invariants,
the cumulative unlocked value computed by `collectable_amount` (the clamped
total before `collected` is subtracted) is monotone non-decreasing in the
timestamp, wherever it is computed (does not panic). -/
theorem unlocked_monotone (start : Nat) (r : Recipient) (t1 t2 u1 u2 : Nat)
    (hv : RecipientValid start r) (h12 : t1 ≤ t2)
    (h1 : totalCollectable start r t1 = some u1)
    (h2 : totalCollectable start r t2 = some u2) : u1 ≤ u2 := by
  obtain ⟨htot, hcol, hpct, h100, hvd, hend⟩ := hv
  have hpos : 0 < U64_LIMIT := by decide
  have hcliff : start + r.cliff_duration < U64_LIMIT := by omega
  rw [totalCollectable_some_eq hpct htot hcliff h1,
    totalCollectable_some_eq hpct htot hcliff h2]
  exact min_le_min (rawUnlocked_mono start r h12) le_rfl

/-- Scenario-A style record: 20% at TGE, no cliff, linear vesting. -/
def exRecipientA : Recipient :=
  { total_amount := 1000
    collected := 0
    collectable_at_tge_percentage := 20
    cliff_duration := 0
    vesting_duration := 1000 }

theorem unlocked_monotone_witness :
    totalCollectable 100 exRecipientA 100 = some 200 ∧
    totalCollectable 100 exRecipientA 600 = some 600 ∧
    (200 : Nat) ≤ 600 := by
  refine ⟨by decide, by decide, ?_⟩
  exact unlocked_monotone 100 exRecipientA 100 600 200 600
    (by refine ⟨?_, ?_, ?_, ?_, ?_, ?_⟩ <;> simp [exRecipientA, U128_LIMIT, U64_LIMIT])
    (by norm_num) (by decide) (by decide)

theorem checkedAddU128_of_lt {a b : Nat} (h : a + b < U128_LIMIT) :
    checkedAddU128 a b = some (a + b) := by
  simp [checkedAddU128, h]

theorem checkedAddU128_of_ge {a b : Nat} (h : U128_LIMIT ≤ a + b) :
    checkedAddU128 a b = none := by
  simp [checkedAddU128]
  omega

/-- Claim C2: after any successful `add_to_recipient`, `to_be_collected` is at
most the live token balance of the contract; the call fails with the
insufficient-balance error whenever `to_be_collected + amount` would exceed
`balance_of`, and with the overflow error when `to_be_collected + amount`
overflows `u128`, leaving the state unchanged in both cases. -/
theorem add_to_recipient_custody (s : AzAirdrop) (caller now balance address amount : Nat)
    (d : Option String) (hauth : CanUpdateRecipients s caller) (hns : now < s.start) :
    (∀ r s2, add_to_recipient s caller now balance address amount d = (.ok r, s2) →
      s2.to_be_collected = amount + s.to_be_collected ∧ s2.to_be_collected ≤ balance) ∧
    (amount + s.to_be_collected < U128_LIMIT → balance < amount + s.to_be_collected →
      add_to_recipient s caller now balance address amount d =
        (.error (.UnprocessableEntity "Insufficient balance"), s)) ∧
    (U128_LIMIT ≤ amount + s.to_be_collected →
      add_to_recipient s caller now balance address amount d =
        (.error (.UnprocessableEntity "Amount will cause to_be_collected to overflow"), s)) := by
  have hng : ¬ ¬ CanUpdateRecipients s caller := not_not_intro hauth
  have hns2 : ¬ s.start ≤ now := by omega
  refine ⟨?_, ?_, ?_⟩
  · intro r s2 h
    unfold add_to_recipient at h
    rw [if_neg hng, if_neg hns2] at h
    cases hadd : checkedAddU128 amount s.to_be_collected with
    | none => rw [hadd] at h; simp at h
    | some ntbc =>
      rw [hadd] at h
      simp only [] at h
      by_cases hbal : balance < ntbc
      · rw [if_pos hbal] at h
        simp at h
      · rw [if_neg hbal] at h
        obtain ⟨he, _⟩ := checkedAddU128_some hadd
        split at h
        · simp at h
        · simp only [Prod.mk.injEq, Except.ok.injEq] at h
          obtain ⟨_, h2⟩ := h
          have h3 : s2.to_be_collected = ntbc := by rw [← h2]
          omega
  · intro hfit hbal
    unfold add_to_recipient
    rw [if_neg hng, if_neg hns2, checkedAddU128_of_lt hfit]
    simp only []
    rw [if_pos hbal]
  · intro hover
    unfold add_to_recipient
    rw [if_neg hng, if_neg hns2, checkedAddU128_of_ge hover]

/-- Claim C7: `subtract_from_recipient`, called by an authorized caller before
`start` on an existing record, fails (state unchanged) when
`amount > total_amount`, and otherwise decreases the record's `total_amount`
by `amount` and `to_be_collected` by `amount` saturating at zero. -/
theorem subtract_from_recipient_spec (s : AzAirdrop) (caller now address amount : Nat)
    (d : Option String) (r : Recipient)
    (hauth : CanUpdateRecipients s caller) (hns : now < s.start)
    (hr : mapGet address s.recipients = some r) :
    (r.total_amount < amount →
      subtract_from_recipient s caller now address amount d =
        (.error (.UnprocessableEntity "Amount is greater than recipient's total amount"), s)) ∧
    (amount ≤ r.total_amount →
      subtract_from_recipient s caller now address amount d =
        (.ok { r with total_amount := r.total_amount - amount },
         { s with
            recipients :=
              mapInsert address { r with total_amount := r.total_amount - amount }
                s.recipients
            to_be_collected := s.to_be_collected - amount })) := by
  have hng : ¬ ¬ CanUpdateRecipients s caller := not_not_intro hauth
  have hns2 : ¬ s.start ≤ now := by omega
  constructor
  · intro hgt
    unfold subtract_from_recipient
    rw [if_neg hng, if_neg hns2, hr]
    simp only []
    rw [if_pos hgt]
  · intro hle
    unfold subtract_from_recipient
    rw [if_neg hng, if_neg hns2, hr]
    simp only []
    rw [if_neg (by omega)]

/-- Claim C10: `collect` called by a caller with no recipient record fails with
`NotFound("Recipient")` (not the zero-amount error), performs no external
transfer, and changes no state. -/
theorem collect_no_record (s : AzAirdrop) (caller now : Nat) (transfer_ok : Bool)
    (h : mapGet caller s.recipients = none) :
    collect s caller now transfer_ok = (.error (.NotFound "Recipient"), s, []) := by
  unfold collect
  rw [h]

/-- `update_recipient` either succeeds, writing exactly the validated record,
or fails leaving the state unchanged. -/
theorem update_recipient_shape (s : AzAirdrop) (caller now address : Nat)
    (pct2 cliff2 vesting2 : Option Nat) :
    (∃ r2, update_recipient s caller now address pct2 cliff2 vesting2 =
      (.ok r2, { s with recipients := mapInsert address r2 s.recipients })) ∨
    (∃ e, update_recipient s caller now address pct2 cliff2 vesting2 = (.error e, s)) := by
  unfold update_recipient
  repeat' split
  all_goals try simp only []
  repeat' split
  all_goals first
    | exact Or.inr ⟨_, rfl⟩
    | exact Or.inl ⟨_, rfl⟩

/-- `update_config` either succeeds or (after the ink! revert of the partial
writes of `update_config_raw`) leaves the state unchanged. -/
theorem update_config_shape (s : AzAirdrop) (caller now : Nat)
    (admin2 : Option Nat) (start2 : Option Nat)
    (default_pct : Option Nat) (default_cliff default_vesting : Option Nat) :
    (∃ s2, update_config s caller now admin2 start2 default_pct default_cliff
        default_vesting = (.ok (), s2)) ∨
    (∃ e, update_config s caller now admin2 start2 default_pct default_cliff
        default_vesting = (.error e, s)) := by
  unfold update_config
  rcases hraw : update_config_raw s caller now admin2 start2 default_pct default_cliff
      default_vesting with ⟨res, s3⟩
  cases res with
  | ok u => exact Or.inl ⟨s3, by simp⟩
  | error e => exact Or.inr ⟨e, by simp⟩

/-- Claim C5: whenever `update_recipient` or `update_config` returns an error,
the contract state after the call equals the state before it — no partial
write (admin or default-schedule field included) survives. -/
theorem update_ops_atomic (s : AzAirdrop) (caller now address : Nat)
    (pct2 cliff2 vesting2 : Option Nat)
    (admin2 start2 default_pct default_cliff default_vesting : Option Nat)
    (e1 e2 : AzAirdropError) :
    ((update_recipient s caller now address pct2 cliff2 vesting2).1 = .error e1 →
      (update_recipient s caller now address pct2 cliff2 vesting2).2 = s) ∧
    ((update_config s caller now admin2 start2 default_pct default_cliff
        default_vesting).1 = .error e2 →
      (update_config s caller now admin2 start2 default_pct default_cliff
        default_vesting).2 = s) := by
  constructor
  · intro h
    rcases update_recipient_shape s caller now address pct2 cliff2 vesting2 with
      ⟨r2, heq⟩ | ⟨e, heq⟩
    · rw [heq] at h
      simp at h
    · rw [heq]
  · intro h
    rcases update_config_shape s caller now admin2 start2 default_pct default_cliff
        default_vesting with ⟨s2, heq⟩ | ⟨e, heq⟩
    · rw [heq] at h
      simp at h
    · rw [heq]

/-- Claim C6: `update_config` changes `start` only when the new value is
strictly in the future and `to_be_collected = 0`; a non-future start fails
with the future-start error and a nonzero `to_be_collected` fails with the
must-be-zero error, in both cases without updating `start`. -/
theorem update_config_start_rules (s : AzAirdrop) (caller now : Nat)
    (admin2 : Option Nat) (ns : Nat)
    (default_pct : Option Nat) (default_cliff default_vesting : Option Nat)
    (hadm : caller = s.admin) :
    (ns ≤ now →
      update_config s caller now admin2 (some ns) default_pct default_cliff
        default_vesting =
        (.error (.UnprocessableEntity "New start time must be in the future"), s)) ∧
    (now < ns → s.to_be_collected ≠ 0 →
      update_config s caller now admin2 (some ns) default_pct default_cliff
        default_vesting =
        (.error (.UnprocessableEntity
          "to_be_collected must be zero when changing start time"), s)) ∧
    ((update_config s caller now admin2 (some ns) default_pct default_cliff
        default_vesting).2.start ≠ s.start →
      now < ns ∧ s.to_be_collected = 0) := by
  have hne : ¬ caller ≠ s.admin := not_not_intro hadm
  have hA : ns ≤ now →
      update_config s caller now admin2 (some ns) default_pct default_cliff
        default_vesting =
        (.error (.UnprocessableEntity "New start time must be in the future"), s) := by
    intro hle
    unfold update_config update_config_raw
    rw [if_neg hne]
    cases admin2 with
    | none =>
      simp only []
      rw [if_neg (by omega)]
    | some a =>
      simp only []
      rw [if_neg (by omega)]
  have hB : now < ns → s.to_be_collected ≠ 0 →
      update_config s caller now admin2 (some ns) default_pct default_cliff
        default_vesting =
        (.error (.UnprocessableEntity
          "to_be_collected must be zero when changing start time"), s) := by
    intro hlt hz
    unfold update_config update_config_raw
    rw [if_neg hne]
    cases admin2 with
    | none =>
      simp only []
      rw [if_pos hlt, if_neg hz]
    | some a =>
      simp only []
      rw [if_pos hlt, if_neg hz]
  refine ⟨hA, hB, ?_⟩
  intro hchg
  by_cases h1 : now < ns
  · by_cases h2 : s.to_be_collected = 0
    · exact ⟨h1, h2⟩
    · rw [hB h1 h2] at hchg
      simp at hchg
  · rw [hA (by omega)] at hchg
    simp at hchg

theorem mapGet_mapInsert {α : Type} (a k : Nat) (v : α) (m : List (Nat × α)) :
    mapGet a (mapInsert k v m) = if a = k then some v else mapGet a m := by
  induction m with
  | nil =>
    simp [mapGet, mapInsert]
  | cons q rest ih =>
    obtain ⟨k2, v2⟩ := q
    by_cases hk : k = k2
    · subst hk
      by_cases ha : a = k
      · simp [mapGet, mapInsert, ha]
      · simp [mapGet, mapInsert, ha]
    · by_cases ha : a = k2
      · subst ha
        have : ¬ a = k := fun h => hk h.symm
        simp [mapGet, mapInsert, hk, this]
      · simp [mapGet, mapInsert, hk, ha, ih]

theorem mapGet_mapRemove {α : Type} (a k : Nat) (m : List (Nat × α)) :
    mapGet a (mapRemove k m) = if a = k then none else mapGet a m := by
  induction m with
  | nil => simp [mapGet, mapRemove]
  | cons q rest ih =>
    obtain ⟨k2, v2⟩ := q
    by_cases hk : k2 = k
    · subst hk
      by_cases ha : a = k2
      · subst ha
        simp [mapGet, mapRemove, ih]
      · simp [mapGet, mapRemove, ha, ih]
    · by_cases ha : a = k2
      · subst ha
        have hak : ¬ a = k := by omega
        simp [mapGet, mapRemove, hk, hak]
      · simp [mapGet, mapRemove, hk, ha, ih]

theorem removeFirst_of_mem {a : Nat} {l : List Nat} (h : a ∈ l) :
    ∃ l2, removeFirst a l = some l2 := by
  induction l with
  | nil => simp at h
  | cons x rest ih =>
    by_cases hx : x = a
    · exact ⟨rest, by simp [removeFirst, hx]⟩
    · have : a ∈ rest := by
        rcases List.mem_cons.mp h with h1 | h1
        · exact absurd h1.symm hx
        · exact h1
      obtain ⟨l3, hl3⟩ := ih this
      exact ⟨x :: l3, by simp [removeFirst, hx, hl3]⟩

theorem removeFirst_spec {a : Nat} {l l2 : List Nat} (hnd : l.Nodup)
    (h : removeFirst a l = some l2) :
    l2.Nodup ∧ ∀ x, x ∈ l2 ↔ x ∈ l ∧ x ≠ a := by
  induction l generalizing l2 with
  | nil => simp [removeFirst] at h
  | cons y rest ih =>
    rw [List.nodup_cons] at hnd
    by_cases hy : y = a
    · subst hy
      simp [removeFirst] at h
      subst h
      refine ⟨hnd.2, fun x => ?_⟩
      constructor
      · intro hx
        refine ⟨List.mem_cons_of_mem _ hx, ?_⟩
        intro hxa
        subst hxa
        exact hnd.1 hx
      · intro ⟨hx, hxa⟩
        rcases List.mem_cons.mp hx with h1 | h1
        · exact absurd h1 hxa
        · exact h1
    · simp [removeFirst, hy] at h
      cases hr : removeFirst a rest with
      | none => rw [hr] at h; simp at h
      | some l3 =>
        rw [hr] at h
        simp at h
        subst h
        obtain ⟨hnd3, hmem⟩ := ih hnd.2 hr
        refine ⟨?_, fun x => ?_⟩
        · rw [List.nodup_cons]
          refine ⟨fun hy3 => hnd.1 ((hmem y).mp hy3).1, hnd3⟩
        · constructor
          · intro hx
            rcases List.mem_cons.mp hx with h1 | h1
            · subst h1
              exact ⟨List.mem_cons_self _ _, fun hxa => hy hxa⟩
            · obtain ⟨h2, h3⟩ := (hmem x).mp h1
              exact ⟨List.mem_cons_of_mem _ h2, h3⟩
          · intro ⟨hx, hxa⟩
            rcases List.mem_cons.mp hx with h1 | h1
            · subst h1
              exact List.mem_cons_self _ _
            · exact List.mem_cons_of_mem _ ((hmem x).mpr ⟨h1, hxa⟩)

/-- The sub-admin bookkeeping invariant: the vector is duplicate-free and an
address has an entry in the mapping exactly when it appears in the vector. -/
def SubAdminsSync (s : AzAirdrop) : Prop :=
  s.sub_admins_as_vec.Nodup ∧
  ∀ a, (mapGet a s.sub_admins_mapping).isSome = true ↔ a ∈ s.sub_admins_as_vec

/-- Claim C9: `sub_admins_add` fails when the address is already a sub-admin
and `sub_admins_remove` fails when it is not, each leaving state unchanged;
every successful add or remove updates both the mapping and the enumerable
vector, preserving the invariant that an address has a mapping entry exactly
when it appears in the vector. -/
theorem sub_admins_ops_spec (s : AzAirdrop) (caller address : Nat)
    (hadm : caller = s.admin) (hsync : SubAdminsSync s) :
    ((mapGet address s.sub_admins_mapping).isSome = true →
      sub_admins_add s caller address =
        (.error (.UnprocessableEntity "Already a sub admin"), s)) ∧
    (mapGet address s.sub_admins_mapping = none →
      sub_admins_add s caller address =
        (.ok (s.sub_admins_as_vec ++ [address]),
         { s with
            sub_admins_as_vec := s.sub_admins_as_vec ++ [address]
            sub_admins_mapping := mapInsert address address s.sub_admins_mapping }) ∧
      SubAdminsSync (sub_admins_add s caller address).2 ∧
      (mapGet address (sub_admins_add s caller address).2.sub_admins_mapping).isSome
        = true ∧
      address ∈ (sub_admins_add s caller address).2.sub_admins_as_vec) ∧
    (mapGet address s.sub_admins_mapping = none →
      sub_admins_remove s caller address =
        (.error (.UnprocessableEntity "Not a sub admin"), s)) ∧
    ((mapGet address s.sub_admins_mapping).isSome = true →
      (∃ v2, sub_admins_remove s caller address =
        (.ok v2,
         { s with
            sub_admins_as_vec := v2
            sub_admins_mapping := mapRemove address s.sub_admins_mapping })) ∧
      SubAdminsSync (sub_admins_remove s caller address).2 ∧
      mapGet address (sub_admins_remove s caller address).2.sub_admins_mapping = none ∧
      address ∉ (sub_admins_remove s caller address).2.sub_admins_as_vec) := by
  have hne : ¬ caller ≠ s.admin := not_not_intro hadm
  obtain ⟨hnd, hmemiff⟩ := hsync
  refine ⟨?_, ?_, ?_, ?_⟩
  · intro h
    unfold sub_admins_add
    rw [if_neg hne, if_pos h]
  · intro h
    have hfalse : ¬ (mapGet address s.sub_admins_mapping).isSome = true := by simp [h]
    have haddr : address ∉ s.sub_admins_as_vec := by
      intro hmem
      exact hfalse ((hmemiff address).mpr hmem)
    have heq : sub_admins_add s caller address =
        (.ok (s.sub_admins_as_vec ++ [address]),
         { s with
            sub_admins_as_vec := s.sub_admins_as_vec ++ [address]
            sub_admins_mapping := mapInsert address address s.sub_admins_mapping }) := by
      unfold sub_admins_add
      rw [if_neg hne, if_neg hfalse]
    refine ⟨heq, ?_, ?_, ?_⟩
    · rw [heq]
      refine ⟨?_, ?_⟩
      · simp [List.nodup_append, hnd, haddr]
      · intro a
        simp only []
        rw [mapGet_mapInsert]
        by_cases ha : a = address
        · subst ha
          simp
        · simp [ha, hmemiff a]
    · rw [heq]
      simp [mapGet_mapInsert]
    · rw [heq]
      simp
  · intro h
    unfold sub_admins_remove
    rw [if_neg hne, if_pos (by simp [h])]
  · intro h
    have hmem : address ∈ s.sub_admins_as_vec := (hmemiff address).mp h
    obtain ⟨l2, hrf⟩ := removeFirst_of_mem hmem
    obtain ⟨hnd2, hmem2⟩ := removeFirst_spec hnd hrf
    have heq : sub_admins_remove s caller address =
        (.ok l2,
         { s with
            sub_admins_as_vec := l2
            sub_admins_mapping := mapRemove address s.sub_admins_mapping }) := by
      unfold sub_admins_remove
      rw [if_neg hne, if_neg (by simp [h]), hrf]
    refine ⟨⟨l2, heq⟩, ?_, ?_, ?_⟩
    · rw [heq]
      refine ⟨hnd2, ?_⟩
      intro a
      simp only []
      rw [mapGet_mapRemove]
      by_cases ha : a = address
      · subst ha
        simp [hmem2 a]
      · simp [ha, hmemiff a, hmem2 a]
    · rw [heq]
      simp [mapGet_mapRemove]
    · rw [heq]
      simp only []
      intro hcon
      exact ((hmem2 address).mp hcon).2 rfl

/-- The unlocked amount does not depend on the `collected` field. -/
theorem totalCollectable_collected_irrel (start : Nat) (r : Recipient) (t c : Nat) :
    totalCollectable start { r with collected := c } t = totalCollectable start r t := rfl

/-- After a successful `collect`, a second `collect` at the same block time
finds a zero withdrawable amount. -/
theorem collect_after_collect {s : AzAirdrop} {caller now amt : Nat} {r : Recipient}
    (hr : mapGet caller s.recipients = some r)
    (hca : collectable_amount_value s.start r now = some amt) (hz : amt ≠ 0)
    (tok2 : Bool) :
    (collect
      { s with
        recipients := mapInsert caller
          { r with collected := saturatingAddU128 r.collected amt } s.recipients
        to_be_collected := s.to_be_collected - amt } caller now tok2).1 =
      .error (.UnprocessableEntity "Amount is zero") := by
  obtain ⟨u, hu, hamt⟩ : ∃ u, totalCollectable s.start r now = some u ∧
      u - r.collected = amt := by
    unfold collectable_amount_value at hca
    cases htc : totalCollectable s.start r now with
    | none => rw [htc] at hca; simp at hca
    | some u =>
      rw [htc] at hca
      simp at hca
      exact ⟨u, rfl, hca⟩
  have hub := totalCollectable_bounds hu
  have hcol : r.collected < u := by omega
  have hsat : saturatingAddU128 r.collected amt = u := by
    unfold saturatingAddU128
    omega
  have hval : collectable_amount_value s.start
      { r with collected := saturatingAddU128 r.collected amt } now = some 0 := by
    unfold collectable_amount_value
    rw [totalCollectable_collected_irrel, hu]
    simp [hsat]
  unfold collect
  simp only []
  rw [mapGet_mapInsert_self]
  simp only []
  rw [hval]
  simp

/-- Claim C4: `collect` fails with the zero-amount error (state unchanged, no
transfer) when the caller's withdrawable amount at the current block time is
zero; if the PSP22 transfer fails nothing changes; on success it performs
exactly one external transfer of the withdrawable amount to the caller and
only then increases the caller's `collected` and decreases `to_be_collected`
by that amount (both saturating); and a second `collect` immediately after a
successful one, with no time passing, fails with the zero-amount error. -/
theorem collect_spec (s : AzAirdrop) (caller now : Nat) (transfer_ok : Bool) :
    (∀ r, mapGet caller s.recipients = some r →
      collectable_amount_value s.start r now = some 0 →
      collect s caller now transfer_ok =
        (.error (.UnprocessableEntity "Amount is zero"), s, [])) ∧
    (∀ r amt, mapGet caller s.recipients = some r →
      collectable_amount_value s.start r now = some amt → amt ≠ 0 →
      transfer_ok = false →
      collect s caller now transfer_ok = (.error .PSP22Error, s, [])) ∧
    (∀ amt s2 txs, collect s caller now transfer_ok = (.ok amt, s2, txs) →
      amt ≠ 0 ∧ txs = [(caller, amt)] ∧
      ∃ r, mapGet caller s.recipients = some r ∧
        collectable_amount_value s.start r now = some amt ∧
        s2 = { s with
                recipients := mapInsert caller
                  { r with collected := saturatingAddU128 r.collected amt } s.recipients
                to_be_collected := s.to_be_collected - amt }) ∧
    (∀ amt s2 txs, collect s caller now transfer_ok = (.ok amt, s2, txs) →
      ∀ transfer_ok2, (collect s2 caller now transfer_ok2).1 =
        .error (.UnprocessableEntity "Amount is zero")) := by
  have h3 : ∀ amt s2 txs, collect s caller now transfer_ok = (.ok amt, s2, txs) →
      amt ≠ 0 ∧ txs = [(caller, amt)] ∧
      ∃ r, mapGet caller s.recipients = some r ∧
        collectable_amount_value s.start r now = some amt ∧
        s2 = { s with
                recipients := mapInsert caller
                  { r with collected := saturatingAddU128 r.collected amt } s.recipients
                to_be_collected := s.to_be_collected - amt } := by
    intro amt s2 txs h
    unfold collect at h
    cases hr : mapGet caller s.recipients with
    | none => rw [hr] at h; simp at h
    | some r =>
      rw [hr] at h
      simp only [] at h
      cases hca : collectable_amount_value s.start r now with
      | none => rw [hca] at h; simp at h
      | some ca =>
        rw [hca] at h
        simp only [] at h
        by_cases hz : ca = 0
        · rw [if_pos hz] at h
          simp at h
        · rw [if_neg hz] at h
          by_cases htr : transfer_ok = false
          · rw [if_pos htr] at h
            simp at h
          · rw [if_neg htr] at h
            simp only [Prod.mk.injEq, Except.ok.injEq] at h
            obtain ⟨hamt, hs2, htxs⟩ := h
            subst hamt
            exact ⟨hz, htxs.symm, r, rfl, hca, hs2.symm⟩
  refine ⟨?_, ?_, h3, ?_⟩
  · intro r hr h0
    unfold collect
    rw [hr]
    simp only []
    rw [h0]
    simp
  · intro r amt hr hca hz htr
    subst htr
    unfold collect
    rw [hr]
    simp only []
    rw [hca]
    simp [hz]
  · intro amt s2 txs h tok2
    obtain ⟨hz, htxs, r, hr, hca, hs2⟩ := h3 amt s2 txs h
    subst hs2
    exact collect_after_collect hr hca hz tok2

/-- `add_to_recipient` preserves the ledger invariant, never changes `start`,
and creates no positive `collected` field. -/
theorem add_to_recipient_inv (s : AzAirdrop) (caller now balance address amount : Nat)
    (d : Option String) (hQ : LedgerInv s)
    (hpos : ∀ p ∈ s.recipients, 0 < p.2.collected → s.start ≤ now) :
    LedgerInv (add_to_recipient s caller now balance address amount d).2 ∧
    (add_to_recipient s caller now balance address amount d).2.start = s.start ∧
    (∀ p ∈ (add_to_recipient s caller now balance address amount d).2.recipients,
      0 < p.2.collected → s.start ≤ now) := by
  obtain ⟨hsum, hcol⟩ := hQ
  unfold add_to_recipient
  split
  · exact ⟨⟨hsum, hcol⟩, rfl, hpos⟩
  · split
    · exact ⟨⟨hsum, hcol⟩, rfl, hpos⟩
    · cases hadd : checkedAddU128 amount s.to_be_collected with
      | none => exact ⟨⟨hsum, hcol⟩, rfl, hpos⟩
      | some ntbc =>
        simp only []
        split
        · exact ⟨⟨hsum, hcol⟩, rfl, hpos⟩
        · obtain ⟨hntbc, _⟩ := checkedAddU128_some hadd
          cases hr : mapGet address s.recipients with
          | none =>
            simp only [Option.getD]
            cases hadd2 : checkedAddU128
                (Recipient.total_amount
                  { total_amount := 0, collected := 0,
                    collectable_at_tge_percentage :=
                      s.default_collectable_at_tge_percentage,
                    cliff_duration := s.default_cliff_duration,
                    vesting_duration := s.default_vesting_duration }) amount with
            | none => exact ⟨⟨hsum, hcol⟩, rfl, hpos⟩
            | some nt =>
              obtain ⟨hnt, _⟩ := checkedAddU128_some hadd2
              simp only [] at hnt
              refine ⟨⟨?_, ?_⟩, rfl, ?_⟩
              · have hri := recSum_insert address
                  { total_amount := nt, collected := 0,
                    collectable_at_tge_percentage :=
                      s.default_collectable_at_tge_percentage,
                    cliff_duration := s.default_cliff_duration,
                    vesting_duration := s.default_vesting_duration } s.recipients
                rw [hr] at hri
                simp only [optContrib] at hri
                simp only []
                omega
              · intro p hp
                rcases mem_mapInsert hp with hpe | hpo
                · subst hpe
                  simp
                · exact hcol p hpo
              · intro p hp hpc
                rcases mem_mapInsert hp with hpe | hpo
                · subst hpe
                  simp at hpc
                · exact hpos p hpo hpc
          | some r =>
            simp only [Option.getD]
            cases hadd2 : checkedAddU128 r.total_amount amount with
            | none => exact ⟨⟨hsum, hcol⟩, rfl, hpos⟩
            | some nt =>
              obtain ⟨hnt, _⟩ := checkedAddU128_some hadd2
              have hmemr := mapGet_mem hr
              have hcolr : r.collected ≤ r.total_amount := hcol _ hmemr
              refine ⟨⟨?_, ?_⟩, rfl, ?_⟩
              · have hri := recSum_insert address { r with total_amount := nt }
                  s.recipients
                rw [hr] at hri
                simp only [optContrib] at hri
                show ntbc = recSum (mapInsert address { r with total_amount := nt }
                  s.recipients)
                omega
              · intro p hp
                rcases mem_mapInsert hp with hpe | hpo
                · subst hpe
                  show r.collected ≤ nt
                  omega
                · exact hcol p hpo
              · intro p hp hpc
                rcases mem_mapInsert hp with hpe | hpo
                · subst hpe
                  have hpc2 : 0 < r.collected := hpc
                  exact hpos _ hmemr hpc2
                · exact hpos p hpo hpc

/-- A nonzero withdrawable amount is only computed at or after `start`. -/
theorem collectable_pos_started {start : Nat} {r : Recipient} {t ca : Nat}
    (h : collectable_amount_value start r t = some ca) (hz : ca ≠ 0) : start ≤ t := by
  by_contra hns
  unfold collectable_amount_value at h
  rw [totalCollectable_not_started hns] at h
  simp at h
  omega

/-- `subtract_from_recipient` preserves the ledger invariant (its success
requires the airdrop not to have started, hence — under the monotone-clock
hypothesis carried by `hpos` — a zero `collected`). -/
theorem subtract_from_recipient_inv (s : AzAirdrop) (caller now address amount : Nat)
    (d : Option String) (hQ : LedgerInv s)
    (hpos : ∀ p ∈ s.recipients, 0 < p.2.collected → s.start ≤ now) :
    LedgerInv (subtract_from_recipient s caller now address amount d).2 ∧
    (subtract_from_recipient s caller now address amount d).2.start = s.start ∧
    (∀ p ∈ (subtract_from_recipient s caller now address amount d).2.recipients,
      0 < p.2.collected → s.start ≤ now) := by
  obtain ⟨hsum, hcol⟩ := hQ
  unfold subtract_from_recipient
  split
  · exact ⟨⟨hsum, hcol⟩, rfl, hpos⟩
  split
  · exact ⟨⟨hsum, hcol⟩, rfl, hpos⟩
  next hns =>
    cases hr : mapGet address s.recipients with
    | none => exact ⟨⟨hsum, hcol⟩, rfl, hpos⟩
    | some r =>
      simp only []
      split
      · exact ⟨⟨hsum, hcol⟩, rfl, hpos⟩
      next hle =>
        have hmemr := mapGet_mem hr
        have hcolr : r.collected ≤ r.total_amount := hcol _ hmemr
        have hc0 : r.collected = 0 := by
          by_contra hc
          have := hpos _ hmemr (show 0 < r.collected by omega)
          omega
        have hcontr : r.total_amount - r.collected ≤ recSum s.recipients :=
          contrib_le_recSum hr
        have hri := recSum_insert address
          { r with total_amount := r.total_amount - amount } s.recipients
        rw [hr] at hri
        simp only [optContrib] at hri
        refine ⟨⟨?_, ?_⟩, rfl, ?_⟩
        · show s.to_be_collected - amount =
            recSum (mapInsert address
              { r with total_amount := r.total_amount - amount } s.recipients)
          omega
        · intro p hp
          rcases mem_mapInsert hp with hpe | hpo
          · subst hpe
            show r.collected ≤ r.total_amount - amount
            omega
          · exact hcol p hpo
        · intro p hp hpc
          rcases mem_mapInsert hp with hpe | hpo
          · subst hpe
            have hpc2 : 0 < r.collected := hpc
            omega
          · exact hpos p hpo hpc

/-- `collect` preserves the ledger invariant; a successful `collect` happens
at or after `start` and raises `collected` exactly to the unlocked value. -/
theorem collect_inv (s : AzAirdrop) (caller now : Nat) (transfer_ok : Bool)
    (hQ : LedgerInv s)
    (hpos : ∀ p ∈ s.recipients, 0 < p.2.collected → s.start ≤ now) :
    LedgerInv (collect s caller now transfer_ok).2.1 ∧
    (collect s caller now transfer_ok).2.1.start = s.start ∧
    (∀ p ∈ (collect s caller now transfer_ok).2.1.recipients,
      0 < p.2.collected → s.start ≤ now) := by
  obtain ⟨hsum, hcol⟩ := hQ
  unfold collect
  cases hr : mapGet caller s.recipients with
  | none => exact ⟨⟨hsum, hcol⟩, rfl, hpos⟩
  | some r =>
    simp only []
    cases hca : collectable_amount_value s.start r now with
    | none => exact ⟨⟨hsum, hcol⟩, rfl, hpos⟩
    | some ca =>
      simp only []
      split
      · exact ⟨⟨hsum, hcol⟩, rfl, hpos⟩
      next hz =>
        split
        · exact ⟨⟨hsum, hcol⟩, rfl, hpos⟩
        · obtain ⟨u, hu, hamt⟩ : ∃ u, totalCollectable s.start r now = some u ∧
              u - r.collected = ca := by
            unfold collectable_amount_value at hca
            cases htc : totalCollectable s.start r now with
            | none => rw [htc] at hca; simp at hca
            | some u =>
              rw [htc] at hca
              simp at hca
              exact ⟨u, rfl, hca⟩
          have hub := totalCollectable_bounds hu
          have hstart : s.start ≤ now := collectable_pos_started hca hz
          have hmemr := mapGet_mem hr
          have hcolr : r.collected ≤ r.total_amount := hcol _ hmemr
          have hclt : r.collected < u := by omega
          have hsat : saturatingAddU128 r.collected ca = u := by
            unfold saturatingAddU128
            omega
          have hcontr : r.total_amount - r.collected ≤ recSum s.recipients :=
            contrib_le_recSum hr
          have hri := recSum_insert caller
            { r with collected := saturatingAddU128 r.collected ca } s.recipients
          rw [hr] at hri
          simp only [optContrib] at hri
          refine ⟨⟨?_, ?_⟩, rfl, ?_⟩
          · show s.to_be_collected - ca =
              recSum (mapInsert caller
                { r with collected := saturatingAddU128 r.collected ca } s.recipients)
            omega
          · intro p hp
            rcases mem_mapInsert hp with hpe | hpo
            · subst hpe
              show saturatingAddU128 r.collected ca ≤ r.total_amount
              omega
            · exact hcol p hpo
          · intro p hp hpc
            rcases mem_mapInsert hp with hpe | hpo
            · subst hpe
              exact hstart
            · exact hpos p hpo hpc

/-- One call (successful or failed) preserves the ledger invariant, keeps
`start`, and keeps records with positive `collected` bounded by its time. -/
theorem applyCall_conservation (s : AzAirdrop) (c : Call) (hQ : LedgerInv s)
    (hpos : ∀ p ∈ s.recipients, 0 < p.2.collected → s.start ≤ Call.time c) :
    LedgerInv (applyCall s c) ∧ (applyCall s c).start = s.start ∧
    (∀ p ∈ (applyCall s c).recipients, 0 < p.2.collected → s.start ≤ Call.time c) := by
  cases c with
  | addCall caller address amount now balance d2 =>
    exact add_to_recipient_inv s caller now balance address amount d2 hQ hpos
  | subtractCall caller address amount now d2 =>
    exact subtract_from_recipient_inv s caller now address amount d2 hQ hpos
  | collectCall caller now transfer_ok =>
    exact collect_inv s caller now transfer_ok hQ hpos

/-- Running any sequence of calls with non-decreasing block timestamps from an
invariant-satisfying state preserves the ledger invariant. -/
theorem runCalls_conservation (calls : List Call) : ∀ s : AzAirdrop, LedgerInv s →
    (calls.map Call.time).Pairwise (fun a b => a ≤ b) →
    (∀ p ∈ s.recipients, 0 < p.2.collected → ∀ c2 ∈ calls, s.start ≤ Call.time c2) →
    LedgerInv (runCalls s calls) := by
  induction calls with
  | nil =>
    intro s hQ _ _
    exact hQ
  | cons c rest ih =>
    intro s hQ hmono hcond
    rw [List.map_cons, List.pairwise_cons] at hmono
    obtain ⟨hhead, htail⟩ := hmono
    obtain ⟨hQ2, hst, hpos2⟩ := applyCall_conservation s c hQ
      (fun p hp hpc => hcond p hp hpc c (List.mem_cons_self _ _))
    have hrun : runCalls s (c :: rest) = runCalls (applyCall s c) rest := rfl
    rw [hrun]
    apply ih (applyCall s c) hQ2 htail
    intro p hp hpc c2 hc2
    have h2 := hpos2 p hp hpc
    have h3 : Call.time c ≤ Call.time c2 := hhead _ (List.mem_map_of_mem Call.time hc2)
    rw [hst]
    omega

/-- Claim C3: starting from the constructor's initial state (zero
`to_be_collected`, no recipients), after any sequence of `add_to_recipient`,
`subtract_from_recipient` and `collect` calls (successful or failed) whose
block timestamps are non-decreasing (the host clock is monotone),
`to_be_collected` equals the sum over all recipient records of
`total_amount - collected`. -/
theorem conservation_of_promised (caller0 token0 start0 p0 c0 v0 : Nat)
    (s0 : AzAirdrop) (hnew : new caller0 token0 start0 p0 c0 v0 = .ok s0)
    (calls : List Call)
    (hmono : (calls.map Call.time).Pairwise (fun a b => a ≤ b)) :
    (runCalls s0 calls).to_be_collected = recSum (runCalls s0 calls).recipients := by
  have hinit : LedgerInv s0 ∧ s0.recipients = [] := by
    unfold new at hnew
    cases hval : validate_airdrop_calculation_variables start0 p0 c0 v0 with
    | error e => rw [hval] at hnew; cases hnew
    | ok u =>
      rw [hval] at hnew
      simp only [Except.ok.injEq] at hnew
      subst hnew
      exact ⟨⟨rfl, by intro p hp; simp at hp⟩, rfl⟩
  have := runCalls_conservation calls s0 hinit.1 hmono (by
    intro p hp
    rw [hinit.2] at hp
    simp at hp)
  exact this.1

/-- A concrete state: admin 1, one recipient (account 2) with a fully-at-TGE
schedule, distribution starting at time 10. -/
def exState : AzAirdrop :=
  { admin := 1
    sub_admins_mapping := []
    sub_admins_as_vec := []
    token := 9
    to_be_collected := 100
    start := 10
    recipients := [(2, { total_amount := 100, collected := 0,
                         collectable_at_tge_percentage := 100,
                         cliff_duration := 0, vesting_duration := 0 })]
    default_collectable_at_tge_percentage := 100
    default_cliff_duration := 0
    default_vesting_duration := 0 }

theorem add_to_recipient_custody_witness :
    add_to_recipient exState 1 5 150 3 200 none =
      (.error (.UnprocessableEntity "Insufficient balance"), exState) :=
  (add_to_recipient_custody exState 1 5 150 3 200 none (Or.inl rfl) (by decide)).2.1
    (by decide) (by decide)

theorem collect_spec_witness :
    (collect ((collect exState 2 50 true).2.1) 2 50 true).1 =
      .error (.UnprocessableEntity "Amount is zero") :=
  (collect_spec exState 2 50 true).2.2.2 100 ((collect exState 2 50 true).2.1)
    ((collect exState 2 50 true).2.2) rfl true

theorem update_ops_atomic_witness :
    (update_recipient exState 7 0 2 none none none).2 = exState ∧
    (update_config exState 7 0 none none none none none).2 = exState :=
  ⟨(update_ops_atomic exState 7 0 2 none none none none none none none none
      .Unauthorised .Unauthorised).1 rfl,
   (update_ops_atomic exState 7 0 2 none none none none none none none none
      .Unauthorised .Unauthorised).2 rfl⟩

theorem update_config_start_rules_witness :
    update_config exState 1 5 none (some 3) none none none =
      (.error (.UnprocessableEntity "New start time must be in the future"), exState) :=
  (update_config_start_rules exState 1 5 none 3 none none none rfl).1 (by decide)

theorem subtract_from_recipient_spec_witness :
    subtract_from_recipient exState 1 5 2 200 none =
      (.error (.UnprocessableEntity "Amount is greater than recipient's total amount"),
       exState) :=
  (subtract_from_recipient_spec exState 1 5 2 200 none
    { total_amount := 100, collected := 0, collectable_at_tge_percentage := 100,
      cliff_duration := 0, vesting_duration := 0 }
    (Or.inl rfl) (by decide) rfl).1 (by decide)

theorem sub_admins_ops_spec_witness :
    sub_admins_remove exState 1 4 =
      (.error (.UnprocessableEntity "Not a sub admin"), exState) :=
  (sub_admins_ops_spec exState 1 4 rfl
    ⟨List.nodup_nil, by intro a; simp [exState, mapGet]⟩).2.2.1 rfl

theorem collect_no_record_witness :
    collect exState 7 0 true = (.error (.NotFound "Recipient"), exState, []) :=
  collect_no_record exState 7 0 true rfl

/-- The state produced by the constructor for the conservation witness. -/
def exS0 : AzAirdrop :=
  { admin := 1
    sub_admins_mapping := []
    sub_admins_as_vec := []
    token := 9
    to_be_collected := 0
    start := 10
    recipients := []
    default_collectable_at_tge_percentage := 100
    default_cliff_duration := 0
    default_vesting_duration := 0 }

/-- An allocation before start followed by a full collection after start. -/
def exTrace : List Call :=
  [Call.addCall 1 2 50 5 60 none, Call.collectCall 2 20 true]

theorem conservation_of_promised_witness :
    (runCalls exS0 exTrace).to_be_collected =
      recSum (runCalls exS0 exTrace).recipients :=
  conservation_of_promised 1 9 10 100 0 0 exS0 (by rfl) exTrace (by decide)
